import Mathlib

/-!
Shallow embedding of the denomination registry and unit-conversion engine
(`src/types/denom.go`) together with the external capabilities it consumes
(denomination-name validation, the arbitrary-precision Decimal Engine and the
textual coin parser, which live outside this repository and are modelled from
the specification).  The registry's two global maps become an explicit
`Registry` record threaded through every operation; Go's `(value, error)`
returns become `Except`.
-/

set_option exponentiation.threshold 400
set_option maxRecDepth 4000

deriving instance DecidableEq for Except

namespace DenomSpec

/-- The fixed significant-bit budget of the Decimal Engine
(`const maxDecBitLen = 315` in `src/types/denom.go`). -/
def maxDecBitLen : Nat := 315

/-- Error kinds of the public operations (the Go code returns `error` values
built with `fmt.Errorf`; the spec names these kinds in §7). -/
inductive DenomError where
  | invalidDenom (d : String)
  | alreadyRegistered (d : String)
  | sourceNotRegistered (d : String)
  | destNotRegistered (d : String)
  | notRegistered
  | parseError (s : String)
  | precisionOverflow
deriving DecidableEq

/-- Integer coin: denomination name plus integer amount (`types.Coin`). -/
structure Coin where
  Denom : String
  Amount : ℤ
deriving DecidableEq

/-- Decimal coin: denomination name plus arbitrary-precision decimal amount
(`types.DecCoin`); the decimal amount is modelled as a rational number. -/
structure DecCoin where
  Denom : String
  Amount : ℚ
deriving DecidableEq

/-- Modelled from the spec: a character allowed after the first character of
a denomination name (letters, digits, or `/ : . _ -`).  The validator
`types.ValidateDenom` itself is not part of this repository. -/
def isValidDenomChar (c : Char) : Bool :=
  c.isAlpha || c.isDigit || c = '/' || c = ':' || c = '.' || c = '_' || c = '-'

/-- Modelled from the spec: the denomination-name grammar used by
`types.ValidateDenom` (not in this repository): first character a letter,
remaining characters `isValidDenomChar`, total length between 3 and 128. -/
def ValidateDenom (s : String) : Bool :=
  match s.data with
  | [] => false
  | c :: cs =>
      c.isAlpha && decide (3 ≤ (c :: cs).length) && decide ((c :: cs).length ≤ 128)
        && cs.all isValidDenomChar

/-- The registry state: the two package-level maps of `src/types/denom.go`,
`denomUnits` (denomination name to unit multiplier) and `baseDenom`
(denomination name to its base denomination).  Go map lookups of absent keys
are modelled with `Option`. -/
structure Registry where
  denomUnits : String → Option ℚ
  baseDenom : String → Option String

/-- The initial state: both package-level maps start empty. -/
def emptyRegistry : Registry := ⟨fun _ => none, fun _ => none⟩

/-- Modelled from the spec: truncation toward zero of a decimal value to an
integer (`Dec.TruncateInt` of the external Decimal Engine).  `Int.tdiv`
truncates the quotient toward zero. -/
def TruncateInt (q : ℚ) : ℤ := q.num.tdiv q.den

/-- Modelled from the spec: multiplication in the external Decimal Engine.
Written via `Rat.divInt` on numerators and denominators so that it is
kernel-computable; `decMul_eq` proves it is exact rational multiplication. -/
def decMul (a b : ℚ) : ℚ := Rat.divInt (a.num * b.num) (a.den * b.den)

/-- Modelled from the spec: division in the external Decimal Engine.  The
exact quotient is computed; a quotient whose significand needs more than
`maxDecBitLen` bits is a fatal precision overflow and is rejected with an
error value rather than silently truncated. -/
def decQuo (a b : ℚ) : Except DenomError ℚ :=
  let q := Rat.divInt (a.num * b.den) (a.den * b.num)
  if 2 ^ maxDecBitLen ≤ q.num.natAbs then .error .precisionOverflow else .ok q

/-- `RegisterDenom` from `src/types/denom.go`: validates `denom`, rejects a
duplicate registration of `denom`, then records `unit` for `denom`, `bUnit`
for `bDenom` (the write to `bDenom` happens second, so it wins when the two
names coincide) and sets both names' base links to `bDenom`. -/
def RegisterDenom (st : Registry) (denom : String) (unit : ℚ)
    (bDenom : String) (bUnit : ℚ) : Except DenomError Registry :=
  if ValidateDenom denom = false then .error (.invalidDenom denom)
  else if (st.denomUnits denom).isSome then .error (.alreadyRegistered denom)
  else .ok
    { denomUnits := fun d =>
        if d = bDenom then some bUnit
        else if d = denom then some unit
        else st.denomUnits d
      baseDenom := fun d =>
        if d = bDenom then some bDenom
        else if d = denom then some bDenom
        else st.baseDenom d }

/-- `GetDenomUnit` from `src/types/denom.go`: grammar-invalid names and
unregistered names both answer negatively. -/
def GetDenomUnit (st : Registry) (denom : String) : Option ℚ :=
  if ValidateDenom denom = false then none else st.denomUnits denom

/-- `GetBaseDenom` from `src/types/denom.go`.  The Go code tests
`baseDenom[denom] == ""`, and a Go map lookup of an absent key yields the
empty string, so an absent entry and an entry recording `""` are
indistinguishable here, exactly as in the source. -/
def GetBaseDenom (st : Registry) (denom : String) : Except DenomError String :=
  if (st.baseDenom denom).getD "" = "" then .error .notRegistered
  else .ok ((st.baseDenom denom).getD "")

/-- `ConvertCoin` from `src/types/denom.go`: validate the target name, look
up both unit multipliers, return the relabelled coin unchanged when the
multipliers are equal, otherwise multiply by the source unit, divide by the
destination unit and truncate toward zero. -/
def ConvertCoin (st : Registry) (coin : Coin) (denom : String) :
    Except DenomError Coin :=
  if ValidateDenom denom = false then .error (.invalidDenom denom)
  else
    match GetDenomUnit st coin.Denom with
    | none => .error (.sourceNotRegistered coin.Denom)
    | some srcUnit =>
        match GetDenomUnit st denom with
        | none => .error (.destNotRegistered denom)
        | some dstUnit =>
            if srcUnit = dstUnit then .ok ⟨denom, coin.Amount⟩
            else
              (decQuo (decMul (coin.Amount : ℚ) srcUnit) dstUnit).map
                fun q => ⟨denom, TruncateInt q⟩

/-- `ConvertDecCoin` from `src/types/denom.go`: identical lookup and error
semantics to `ConvertCoin` but without the final truncation. -/
def ConvertDecCoin (st : Registry) (coin : DecCoin) (denom : String) :
    Except DenomError DecCoin :=
  if ValidateDenom denom = false then .error (.invalidDenom denom)
  else
    match GetDenomUnit st coin.Denom with
    | none => .error (.sourceNotRegistered coin.Denom)
    | some srcUnit =>
        match GetDenomUnit st denom with
        | none => .error (.destNotRegistered denom)
        | some dstUnit =>
            if srcUnit = dstUnit then .ok ⟨denom, coin.Amount⟩
            else
              (decQuo (decMul coin.Amount srcUnit) dstUnit).map
                fun q => ⟨denom, q⟩

/-- `NormalizeCoin` from `src/types/denom.go`: convert to the registered base
denomination, returning the original coin if either step fails. -/
def NormalizeCoin (st : Registry) (coin : Coin) : Coin :=
  match GetBaseDenom st coin.Denom with
  | .error _ => coin
  | .ok base =>
      match ConvertCoin st coin base with
      | .error _ => coin
      | .ok newCoin => newCoin

/-- `NormalizeDecCoin` from `src/types/denom.go`: the decimal analogue of
`NormalizeCoin`, with the same fallbacks. -/
def NormalizeDecCoin (st : Registry) (coin : DecCoin) : DecCoin :=
  match GetBaseDenom st coin.Denom with
  | .error _ => coin
  | .ok base =>
      match ConvertDecCoin st coin base with
      | .error _ => coin
      | .ok newCoin => newCoin

/-- Modelled from the spec: `DecCoin.TruncateDecimal` of the external coin
library splits a decimal coin into its truncated integer coin and the
fractional change. -/
def TruncateDecimal (c : DecCoin) : Coin × DecCoin :=
  (⟨c.Denom, TruncateInt c.Amount⟩,
   ⟨c.Denom, c.Amount - (TruncateInt c.Amount : ℚ)⟩)

/-- `NormalizeCoins` from `src/types/denom.go`: normalize and truncate each
decimal coin in order (the Go nil-slice special case has no analogue for a
Lean list). -/
def NormalizeCoins (st : Registry) (coins : List DecCoin) : List Coin :=
  coins.map fun c => (TruncateDecimal (NormalizeDecCoin st c)).1

/-- One argument tuple of a `RegisterDenom` call, used to describe finite
call sequences against the package-level registry. -/
structure RegCall where
  denom : String
  unit : ℚ
  bDenom : String
  bUnit : ℚ

/-- Effect of one `RegisterDenom` call on the package-level maps: on success
the maps are replaced, on any error the Go function returns before mutating
them, so the state is kept. -/
def applyReg (st : Registry) (c : RegCall) : Registry :=
  match RegisterDenom st c.denom c.unit c.bDenom c.bUnit with
  | .ok st' => st'
  | .error _ => st

/-- The registry state after a finite sequence of `RegisterDenom` calls
(successful or failing) starting from the empty initial maps. -/
def execRegs (cs : List RegCall) : Registry := cs.foldl applyReg emptyRegistry

/-- The registry of the spec's worked example:
`RegisterDenom("atom", 1, "uatom", 10^-6)`. -/
def regAtom : Registry := execRegs [⟨"atom", 1, "uatom", mkRat 1 1000000⟩]

/-- A registry with unit ratio 1:3 between `abc` and `bcd`. -/
def reg13 : Registry := execRegs [⟨"abc", 1, "bcd", 3⟩]

/-- A registry built by registering `abc` with the empty string as its base
denomination (the base name is never validated). -/
def regEmptyBase : Registry := execRegs [⟨"abc", 1, "", 1⟩]

/-- A registry built by registering `abc` with the grammar-invalid name `ab`
(too short) as its base denomination. -/
def regShortBase : Registry := execRegs [⟨"abc", 1, "ab", mkRat 1 2⟩]

/-- The denomination-unit map recorded by a registration outcome: `none` when
the call failed, otherwise the entry stored for `d`. -/
def unitsAfter (r : Except DenomError Registry) (d : String) : Option (Option ℚ) :=
  match r with
  | .error _ => none
  | .ok st => some (st.denomUnits d)

/-- The error of a registration outcome, if any. -/
def errOf (r : Except DenomError Registry) : Option DenomError :=
  match r with
  | .error e => some e
  | .ok _ => none

/-- Idempotence of the base-link map: every base denomination maps to
itself. -/
def BaseLinkInv (st : Registry) : Prop :=
  ∀ d b, st.baseDenom d = some b → st.baseDenom b = some b

/-- Every denomination reachable as a base link has a recorded unit
multiplier.  Auxiliary reachability invariant used to prove `BaseLinkInv`. -/
def BaseHasUnit (st : Registry) : Prop :=
  ∀ d b, st.baseDenom d = some b → (st.denomUnits b).isSome = true

/-- Numeric value of a digit string. -/
def natOfDigits (l : List Char) : ℕ :=
  l.foldl (fun n c => 10 * n + (c.toNat - 48)) 0

/-- Modelled from the spec: the decimal value `intPart.fracPart` of the text
grammar's amount literal. -/
def mkAmount (intPart fracPart : List Char) : ℚ :=
  Rat.divInt
    (natOfDigits intPart * 10 ^ fracPart.length + natOfDigits fracPart)
    (10 ^ fracPart.length)

/-- Modelled from the spec: parse an unsigned amount literal (one or more
digits, optionally a dot followed by one or more digits) at the front of the
character list, returning its value and the unread remainder. -/
def parseUnsigned (cs : List Char) : Option (ℚ × List Char) :=
  match cs.span Char.isDigit with
  | (intPart, rest) =>
      if intPart.isEmpty then none
      else
        match rest with
        | '.' :: t =>
            match t.span Char.isDigit with
            | (fracPart, rest2) =>
                if fracPart.isEmpty then none
                else some (mkAmount intPart fracPart, rest2)
        | _ => some (mkAmount intPart [], rest)

/-- Modelled from the spec: an amount literal with an optional leading
sign. -/
def parseAmount (cs : List Char) : Option (ℚ × List Char) :=
  match cs with
  | '+' :: t => parseUnsigned t
  | '-' :: t => (parseUnsigned t).map fun p => (-p.1, p.2)
  | _ => parseUnsigned cs

/-- Modelled from the spec: `types.ParseDecCoin` (not in this repository)
parses exactly one `<amount><denom>` pair with no separator; everything after
the amount literal must be a grammar-valid denomination name. -/
def ParseDecCoin (s : String) : Except DenomError DecCoin :=
  match parseAmount s.data with
  | none => .error (.parseError s)
  | some (a, denomChars) =>
      if ValidateDenom (String.mk denomChars) then
        .ok ⟨String.mk denomChars, a⟩
      else .error (.parseError s)

/-- Split a character list at every comma (the delimiter of the multi-coin
grammar). -/
def splitOnComma : List Char → List (List Char)
  | [] => [[]]
  | c :: t =>
      let r := splitOnComma t
      if c = ',' then [] :: r
      else
        match r with
        | [] => [[c]]
        | h :: t2 => (c :: h) :: t2

/-- Modelled from the spec: `types.ParseDecCoins` (not in this repository)
parses a comma-separated list of single-coin strings, in order, failing on
any malformed element; the empty string parses to the empty list. -/
def ParseDecCoins (s : String) : Except DenomError (List DecCoin) :=
  if s.data.isEmpty then .ok []
  else (splitOnComma s.data).mapM fun e => ParseDecCoin (String.mk e)

/-- `ParseCoinNormalized` from `src/types/denom.go`: parse one decimal coin,
normalize it and truncate it toward zero. -/
def ParseCoinNormalized (st : Registry) (s : String) : Except DenomError Coin :=
  match ParseDecCoin s with
  | .error e => .error e
  | .ok dc => .ok (TruncateDecimal (NormalizeDecCoin st dc)).1

/-- `ParseCoinsNormalized` from `src/types/denom.go`: parse a multi-coin
string and normalize every element in order. -/
def ParseCoinsNormalized (st : Registry) (s : String) :
    Except DenomError (List Coin) :=
  match ParseDecCoins s with
  | .error e => .error e
  | .ok cs => .ok (NormalizeCoins st cs)

/-- The Decimal Engine's multiplication is exact rational multiplication. -/
theorem decMul_eq (a b : ℚ) : decMul a b = a * b := by
  unfold decMul
  rw [Rat.divInt_eq_div]
  push_cast
  rw [← div_mul_div_comm, Rat.num_div_den, Rat.num_div_den]

/-- The integer fraction fed to the Decimal Engine's division is the exact
rational quotient. -/
theorem divInt_num_den (a b : ℚ) :
    Rat.divInt (a.num * b.den) (a.den * b.num) = a / b := by
  rcases eq_or_ne b 0 with hb | hb
  · subst hb
    simp
  · have hbn : (b.num : ℚ) ≠ 0 := by
      exact_mod_cast Rat.num_ne_zero.mpr hb
    have had : ((a.den : ℕ) : ℚ) ≠ 0 := by
      exact_mod_cast a.den_ne_zero
    have hbd : ((b.den : ℕ) : ℚ) ≠ 0 := by
      exact_mod_cast b.den_ne_zero
    have ha : (a.num : ℚ) = a * a.den := (div_eq_iff had).mp (Rat.num_div_den a)
    have hbb : (b.num : ℚ) = b * b.den := (div_eq_iff hbd).mp (Rat.num_div_den b)
    rw [Rat.divInt_eq_div]
    push_cast
    rw [div_eq_div_iff (by exact mul_ne_zero had hbn) hb, ha, hbb]
    ring

/-- When the bit budget is respected, the Decimal Engine's division returns
the exact rational quotient. -/
theorem decQuo_eq_ok (a b : ℚ)
    (h : (Rat.divInt (a.num * b.den) (a.den * b.num)).num.natAbs
        < 2 ^ maxDecBitLen) :
    decQuo a b = .ok (a / b) := by
  unfold decQuo
  rw [if_neg (by omega), divInt_num_den]

/-- When the quotient's significand exceeds the bit budget, the Decimal
Engine's division reports a precision overflow as an error value. -/
theorem decQuo_overflow (a b : ℚ)
    (h : 2 ^ maxDecBitLen ≤ (Rat.divInt (a.num * b.den) (a.den * b.num)).num.natAbs) :
    decQuo a b = .error .precisionOverflow := by
  unfold decQuo
  rw [if_pos h]

/-- The overflow test of `decQuo` is equivalently a test on the exact
quotient `a / b`. -/
theorem decQuo_eq_ok_of_quot (a b : ℚ)
    (h : (a / b).num.natAbs < 2 ^ maxDecBitLen) :
    decQuo a b = .ok (a / b) := by
  apply decQuo_eq_ok
  rw [divInt_num_den]
  exact h

/-- Truncation toward zero agrees with the floor on nonnegative values. -/
theorem TruncateInt_eq_floor (q : ℚ) (h : 0 ≤ q) : TruncateInt q = ⌊q⌋ := by
  unfold TruncateInt
  rw [Rat.floor_def]
  exact Int.tdiv_eq_ediv (by exact_mod_cast Rat.num_nonneg.mpr h)
    (by positivity)

/-- A successful unit lookup implies the name passed the grammar. -/
theorem validate_of_unit {st : Registry} {d : String} {u : ℚ}
    (h : GetDenomUnit st d = some u) : ValidateDenom d = true := by
  unfold GetDenomUnit at h
  by_cases hv : ValidateDenom d = false
  · rw [if_pos hv] at h
    cases h
  · exact eq_true_of_ne_false hv

/-- Reduction of `ConvertCoin` once both unit lookups succeed. -/
theorem ConvertCoin_of_units (st : Registry) (c : Coin) (d : String)
    (su du : ℚ) (hs : GetDenomUnit st c.Denom = some su)
    (hd : GetDenomUnit st d = some du) :
    ConvertCoin st c d =
      if su = du then .ok ⟨d, c.Amount⟩
      else (decQuo (decMul (c.Amount : ℚ) su) du).map
        fun q => ⟨d, TruncateInt q⟩ := by
  have hv : ValidateDenom d = true := validate_of_unit hd
  unfold ConvertCoin
  rw [hv, hs, hd]
  simp

/-- Reduction of `ConvertDecCoin` once both unit lookups succeed. -/
theorem ConvertDecCoin_of_units (st : Registry) (c : DecCoin) (d : String)
    (su du : ℚ) (hs : GetDenomUnit st c.Denom = some su)
    (hd : GetDenomUnit st d = some du) :
    ConvertDecCoin st c d =
      if su = du then .ok ⟨d, c.Amount⟩
      else (decQuo (decMul c.Amount su) du).map fun q => ⟨d, q⟩ := by
  have hv : ValidateDenom d = true := validate_of_unit hd
  unfold ConvertDecCoin
  rw [hv, hs, hd]
  simp

/-- The overflow test of `decQuo` phrased on the exact quotient. -/
theorem decQuo_overflow_of_quot (a b : ℚ)
    (h : 2 ^ maxDecBitLen ≤ (a / b).num.natAbs) :
    decQuo a b = .error .precisionOverflow := by
  apply decQuo_overflow
  rw [divInt_num_den]
  exact h

/-- C1 (amended): for every coin whose denomination is registered (its unit
lookup succeeds) and every grammar-valid registered target denomination,
`ConvertCoin` returns a coin labeled with the target whose amount is the
source amount unchanged when the two unit multipliers are equal (in
particular converting to the coin's own denomination is the identity), and
otherwise the exact value `amount * unit_src / unit_dst` truncated toward
zero, provided that quotient fits the 315-bit significand budget (a larger
quotient is rejected with `PrecisionOverflow`). -/
theorem ConvertCoin_correct (st : Registry) (c : Coin) (d : String)
    (su du : ℚ) (hs : GetDenomUnit st c.Denom = some su)
    (hd : GetDenomUnit st d = some du) :
    (su = du → ConvertCoin st c d = .ok ⟨d, c.Amount⟩) ∧
    (d = c.Denom → ConvertCoin st c d = .ok ⟨d, c.Amount⟩) ∧
    (su ≠ du → ((c.Amount : ℚ) * su / du).num.natAbs < 2 ^ maxDecBitLen →
      ConvertCoin st c d = .ok ⟨d, TruncateInt ((c.Amount : ℚ) * su / du)⟩) := by
  rw [ConvertCoin_of_units st c d su du hs hd]
  refine ⟨fun h => ?_, fun h => ?_, fun hne hbud => ?_⟩
  · rw [if_pos h]
  · have heq : su = du := by
      rw [h, hs] at hd
      exact Option.some.inj hd
    rw [if_pos heq]
  · rw [if_neg hne, decMul_eq, decQuo_eq_ok_of_quot _ _ hbud]
    rfl

/-- C1 witness: in the spec's example registry, 1 atom converts to the
truncated quotient in uatom, and converting uatom to itself is the
identity. -/
theorem ConvertCoin_correct_witness :
    ConvertCoin regAtom ⟨"atom", 1⟩ "uatom" =
      .ok ⟨"uatom", TruncateInt ((((1 : ℤ) : ℚ)) * 1 / mkRat 1 1000000)⟩ ∧
    ConvertCoin regAtom ⟨"uatom", 7⟩ "uatom" = .ok ⟨"uatom", 7⟩ :=
  ⟨(ConvertCoin_correct regAtom ⟨"atom", 1⟩ "uatom" 1 (mkRat 1 1000000)
      (by decide) (by decide)).2.2 (by decide)
      (by
        rw [show (((1 : ℤ) : ℚ)) * 1 / mkRat 1 1000000 =
            Rat.divInt 1000000 1 from by
          rw [Rat.mkRat_eq_divInt, Rat.divInt_eq_div, Rat.divInt_eq_div]
          norm_num]
        decide),
   (ConvertCoin_correct regAtom ⟨"uatom", 7⟩ "uatom" (mkRat 1 1000000)
      (mkRat 1 1000000) (by decide) (by decide)).1 rfl⟩

/-- C1 counterexample: with both denominations registered and the target
grammar-valid, a 321-bit quotient makes `ConvertCoin` return the
`PrecisionOverflow` error instead of a converted coin, so the claim's
unconditional success is false. -/
theorem ConvertCoin_correct_counterexample :
    GetDenomUnit reg13 "abc" = some 1 ∧
    GetDenomUnit reg13 "bcd" = some 3 ∧
    ConvertCoin reg13 ⟨"abc", 2 ^ 320⟩ "bcd" = .error .precisionOverflow := by
  decide

/-- C3: every failure of the converters is returned as an error value: both
converters always return a value (error or coin, never an abort), and a
division whose quotient exceeds the 315-bit significand budget yields the
`PrecisionOverflow` error value in both `ConvertCoin` and
`ConvertDecCoin`. -/
theorem Convert_errors_as_values (st : Registry) (c : Coin) (dc : DecCoin)
    (d : String) (su du : ℚ)
    (hs : GetDenomUnit st c.Denom = some su)
    (hds : GetDenomUnit st dc.Denom = some su)
    (hd : GetDenomUnit st d = some du) (hne : su ≠ du)
    (hover : 2 ^ maxDecBitLen ≤ ((c.Amount : ℚ) * su / du).num.natAbs)
    (hoverd : 2 ^ maxDecBitLen ≤ (dc.Amount * su / du).num.natAbs) :
    ConvertCoin st c d = .error .precisionOverflow ∧
    ConvertDecCoin st dc d = .error .precisionOverflow ∧
    (∀ c2 d2, (∃ e, ConvertCoin st c2 d2 = .error e) ∨
      ∃ r, ConvertCoin st c2 d2 = .ok r) ∧
    (∀ c2 d2, (∃ e, ConvertDecCoin st c2 d2 = .error e) ∨
      ∃ r, ConvertDecCoin st c2 d2 = .ok r) := by
  refine ⟨?_, ?_, ?_, ?_⟩
  · rw [ConvertCoin_of_units st c d su du hs hd, if_neg hne, decMul_eq,
      decQuo_overflow_of_quot _ _ hover]
    rfl
  · rw [ConvertDecCoin_of_units st dc d su du hds hd, if_neg hne, decMul_eq,
      decQuo_overflow_of_quot _ _ hoverd]
    rfl
  · intro c2 d2
    cases h : ConvertCoin st c2 d2 with
    | error e => exact Or.inl ⟨e, rfl⟩
    | ok r => exact Or.inr ⟨r, rfl⟩
  · intro c2 d2
    cases h : ConvertDecCoin st c2 d2 with
    | error e => exact Or.inl ⟨e, rfl⟩
    | ok r => exact Or.inr ⟨r, rfl⟩

/-- C3 witness: a 321-bit quotient surfaces as the `PrecisionOverflow` error
value from both converters. -/
theorem Convert_errors_as_values_witness :
    ConvertCoin reg13 ⟨"abc", 2 ^ 320⟩ "bcd" = .error .precisionOverflow ∧
    ConvertDecCoin reg13 ⟨"abc", ((2 ^ 320 : ℤ) : ℚ)⟩ "bcd" =
      .error .precisionOverflow :=
  ⟨(Convert_errors_as_values reg13 ⟨"abc", 2 ^ 320⟩
      ⟨"abc", ((2 ^ 320 : ℤ) : ℚ)⟩ "bcd" 1 3 (by decide) (by decide)
      (by decide) (by decide)
      (by
        rw [show (((2 ^ 320 : ℤ) : ℚ)) * 1 / 3 = Rat.divInt (2 ^ 320) 3 from by
          rw [Rat.divInt_eq_div]
          push_cast
          ring]
        decide)
      (by
        rw [show (((2 ^ 320 : ℤ) : ℚ)) * 1 / 3 = Rat.divInt (2 ^ 320) 3 from by
          rw [Rat.divInt_eq_div]
          push_cast
          ring]
        decide)).1,
   (Convert_errors_as_values reg13 ⟨"abc", 2 ^ 320⟩
      ⟨"abc", ((2 ^ 320 : ℤ) : ℚ)⟩ "bcd" 1 3 (by decide) (by decide)
      (by decide) (by decide)
      (by
        rw [show (((2 ^ 320 : ℤ) : ℚ)) * 1 / 3 = Rat.divInt (2 ^ 320) 3 from by
          rw [Rat.divInt_eq_div]
          push_cast
          ring]
        decide)
      (by
        rw [show (((2 ^ 320 : ℤ) : ℚ)) * 1 / 3 = Rat.divInt (2 ^ 320) 3 from by
          rw [Rat.divInt_eq_div]
          push_cast
          ring]
        decide)).2.1⟩

/-- C4: when both denominations are registered, the multipliers differ, the
exact quotient is nonnegative, within the bit budget and non-integral,
`ConvertCoin` returns the floor of the quotient — the fractional remainder is
discarded (the result is strictly below the exact value), never rounded to
nearest or away from zero. -/
theorem ConvertCoin_truncates_toward_zero (st : Registry) (c : Coin)
    (d : String) (su du : ℚ) (hs : GetDenomUnit st c.Denom = some su)
    (hd : GetDenomUnit st d = some du) (hne : su ≠ du)
    (hq0 : 0 ≤ (c.Amount : ℚ) * su / du)
    (hbud : ((c.Amount : ℚ) * su / du).num.natAbs < 2 ^ maxDecBitLen)
    (hfrac : ((c.Amount : ℚ) * su / du).den ≠ 1) :
    ConvertCoin st c d = .ok ⟨d, ⌊(c.Amount : ℚ) * su / du⌋⟩ ∧
    (⌊(c.Amount : ℚ) * su / du⌋ : ℚ) < (c.Amount : ℚ) * su / du := by
  refine ⟨?_, ?_⟩
  · rw [ConvertCoin_of_units st c d su du hs hd, if_neg hne, decMul_eq,
      decQuo_eq_ok_of_quot _ _ hbud]
    have ht : TruncateInt ((c.Amount : ℚ) * su / du) =
        ⌊(c.Amount : ℚ) * su / du⌋ := TruncateInt_eq_floor _ hq0
    simp only [Except.map, ht]
  · refine lt_of_le_of_ne (Int.floor_le _) ?_
    intro heq
    apply hfrac
    rw [← heq]
    exact Rat.den_intCast _

/-- C4 witness: with unit ratio 1:3, converting 2 abc yields 0 bcd — the
remainder 2/3 (which would round to 1) is discarded. -/
theorem ConvertCoin_truncates_toward_zero_witness :
    ConvertCoin reg13 ⟨"abc", 2⟩ "bcd" =
      .ok ⟨"bcd", ⌊(((2 : ℤ) : ℚ)) * 1 / 3⌋⟩ ∧
    (⌊(((2 : ℤ) : ℚ)) * 1 / 3⌋ : ℚ) < (((2 : ℤ) : ℚ)) * 1 / 3 :=
  ConvertCoin_truncates_toward_zero reg13 ⟨"abc", 2⟩ "bcd" 1 3 (by decide)
    (by decide) (by decide)
    (by
      rw [show (((2 : ℤ) : ℚ)) * 1 / 3 = Rat.divInt 2 3 from by
        rw [Rat.divInt_eq_div]
        push_cast
        ring]
      decide)
    (by
      rw [show (((2 : ℤ) : ℚ)) * 1 / 3 = Rat.divInt 2 3 from by
        rw [Rat.divInt_eq_div]
        push_cast
        ring]
      decide)
    (by
      rw [show (((2 : ℤ) : ℚ)) * 1 / 3 = Rat.divInt 2 3 from by
        rw [Rat.divInt_eq_div]
        push_cast
        ring]
      decide)

/-- C2 (amended): for every registry state in which the grammar-valid name
`denom` already has a multiplier recorded, `RegisterDenom` returns the
`AlreadyRegistered` error and leaves both maps unchanged, so a subsequent
`GetDenomUnit denom` still returns the original multiplier.  (A recorded but
grammar-invalid name is rejected as `InvalidDenom` instead.) -/
theorem RegisterDenom_alreadyRegistered (st : Registry) (denom bD : String)
    (unit bU u : ℚ) (hv : ValidateDenom denom = true)
    (hr : st.denomUnits denom = some u) :
    RegisterDenom st denom unit bD bU = .error (.alreadyRegistered denom) ∧
    applyReg st ⟨denom, unit, bD, bU⟩ = st ∧
    GetDenomUnit (applyReg st ⟨denom, unit, bD, bU⟩) denom = some u := by
  have h1 : RegisterDenom st denom unit bD bU =
      .error (.alreadyRegistered denom) := by
    unfold RegisterDenom
    rw [hv, hr]
    simp
  have h2 : applyReg st ⟨denom, unit, bD, bU⟩ = st := by
    unfold applyReg
    rw [h1]
  refine ⟨h1, h2, ?_⟩
  rw [h2]
  unfold GetDenomUnit
  rw [hv, hr]
  simp

/-- C2 witness: re-registering `abc` (multiplier 1 in `reg13`) fails with
`AlreadyRegistered`, the state is unchanged and the lookup still answers 1. -/
theorem RegisterDenom_alreadyRegistered_witness :
    RegisterDenom reg13 "abc" 5 "xyz" 7 =
      .error (.alreadyRegistered "abc") ∧
    applyReg reg13 ⟨"abc", 5, "xyz", 7⟩ = reg13 ∧
    GetDenomUnit (applyReg reg13 ⟨"abc", 5, "xyz", 7⟩) "abc" = some 1 :=
  RegisterDenom_alreadyRegistered reg13 "abc" "xyz" 5 7 1 (by decide)
    (by decide)

/-- C2 counterexample: the name `ab` has a multiplier recorded in
`regShortBase` (installed through the unvalidated base-denomination slot),
yet re-registering it returns `InvalidDenom`, not `AlreadyRegistered`. -/
theorem RegisterDenom_alreadyRegistered_counterexample :
    (regShortBase.denomUnits "ab").isSome = true ∧
    errOf (RegisterDenom regShortBase "ab" 2 "xyz" 3) =
      some (.invalidDenom "ab") ∧
    errOf (RegisterDenom regShortBase "ab" 2 "xyz" 3) ≠
      some (.alreadyRegistered "ab") := by
  decide

/-- C5: `NormalizeCoin` and `NormalizeDecCoin` are total (they return a coin,
not an error); when the base lookup fails, or the conversion to the base
fails, they return the input coin unchanged, and otherwise they return the
converted coin. -/
theorem NormalizeCoin_total (st : Registry) (c : Coin) (dc : DecCoin) :
    (∀ e, GetBaseDenom st c.Denom = .error e → NormalizeCoin st c = c) ∧
    (∀ b, GetBaseDenom st c.Denom = .ok b →
      (∀ e, ConvertCoin st c b = .error e → NormalizeCoin st c = c) ∧
      (∀ c', ConvertCoin st c b = .ok c' → NormalizeCoin st c = c')) ∧
    (∀ e, GetBaseDenom st dc.Denom = .error e → NormalizeDecCoin st dc = dc) ∧
    (∀ b, GetBaseDenom st dc.Denom = .ok b →
      (∀ e, ConvertDecCoin st dc b = .error e → NormalizeDecCoin st dc = dc) ∧
      (∀ c', ConvertDecCoin st dc b = .ok c' →
        NormalizeDecCoin st dc = c')) := by
  refine ⟨?_, ?_, ?_, ?_⟩
  · intro e he
    simp [NormalizeCoin, he]
  · intro b hb
    refine ⟨?_, ?_⟩ <;> intro x hx <;> simp [NormalizeCoin, hb, hx]
  · intro e he
    simp [NormalizeDecCoin, he]
  · intro b hb
    refine ⟨?_, ?_⟩ <;> intro x hx <;> simp [NormalizeDecCoin, hb, hx]

/-- C5 witness: normalizing a coin with an unregistered denomination returns
it unchanged, for both the integer and the decimal variant. -/
theorem NormalizeCoin_total_witness :
    NormalizeCoin emptyRegistry ⟨"zzz", 5⟩ = ⟨"zzz", 5⟩ ∧
    NormalizeDecCoin emptyRegistry ⟨"zzz", 5⟩ = ⟨"zzz", 5⟩ :=
  ⟨(NormalizeCoin_total emptyRegistry ⟨"zzz", 5⟩ ⟨"zzz", 5⟩).1
      .notRegistered (by decide),
   (NormalizeCoin_total emptyRegistry ⟨"zzz", 5⟩ ⟨"zzz", 5⟩).2.2.1
      .notRegistered (by decide)⟩

/-- C6 (amended): a successful `RegisterDenom` of a grammar-valid,
not-yet-registered `denom` with a distinct base name records `unit` for
`denom`, `bUnit` for `bDenom` (overwriting any prior multiplier), sets both
base links to `bDenom`, and changes nothing else; when `denom = bDenom` the
second write wins and the recorded multiplier is `bUnit`, not `unit`. -/
theorem RegisterDenom_success (st : Registry) (denom bD : String)
    (unit bU : ℚ) (hv : ValidateDenom denom = true)
    (hnew : st.denomUnits denom = none) (hne : denom ≠ bD) :
    ∃ st', RegisterDenom st denom unit bD bU = .ok st' ∧
      st'.denomUnits denom = some unit ∧
      st'.denomUnits bD = some bU ∧
      st'.baseDenom denom = some bD ∧
      st'.baseDenom bD = some bD ∧
      (∀ x, x ≠ denom → x ≠ bD →
        st'.denomUnits x = st.denomUnits x ∧
        st'.baseDenom x = st.baseDenom x) := by
  refine ⟨⟨fun d =>
      if d = bD then some bU
      else if d = denom then some unit
      else st.denomUnits d,
    fun d =>
      if d = bD then some bD
      else if d = denom then some bD
      else st.baseDenom d⟩, ?_, ?_, ?_, ?_, ?_, ?_⟩
  · unfold RegisterDenom
    rw [hv, hnew]
    simp
  · simp [hne]
  · simp
  · simp [hne]
  · simp
  · intro x hx1 hx2
    constructor <;> simp [hx1, hx2]

/-- C6 witness: registering `abc` over base `bcd` in the empty registry
installs exactly the four expected entries. -/
theorem RegisterDenom_success_witness :
    ∃ st', RegisterDenom emptyRegistry "abc" 1 "bcd" 2 = .ok st' ∧
      st'.denomUnits "abc" = some 1 ∧
      st'.denomUnits "bcd" = some 2 ∧
      st'.baseDenom "abc" = some "bcd" ∧
      st'.baseDenom "bcd" = some "bcd" ∧
      (∀ x, x ≠ "abc" → x ≠ "bcd" →
        st'.denomUnits x = emptyRegistry.denomUnits x ∧
        st'.baseDenom x = emptyRegistry.baseDenom x) :=
  RegisterDenom_success emptyRegistry "abc" "bcd" 1 2 (by decide) rfl
    (by decide)

/-- C6 counterexample: registering with `denom = bDenom` and distinct units
succeeds, but the recorded multiplier for `denom` is `bUnit` (2), not `unit`
(1) as the claim requires. -/
theorem RegisterDenom_success_counterexample :
    unitsAfter (RegisterDenom emptyRegistry "abc" 1 "abc" 2) "abc" =
      some (some 2) ∧
    unitsAfter (RegisterDenom emptyRegistry "abc" 1 "abc" 2) "abc" ≠
      some (some 1) := by
  decide

/-- C8 (amended): `GetBaseDenom denom` fails with `NotRegistered` exactly
when the base-link entry for `denom` is absent or records the empty string
(the Go code cannot tell the two apart); whenever a nonempty entry exists it
returns that entry's base denomination name. -/
theorem GetBaseDenom_spec (st : Registry) (d : String) :
    (GetBaseDenom st d = .error .notRegistered ↔
      st.baseDenom d = none ∨ st.baseDenom d = some "") ∧
    (∀ b, st.baseDenom d = some b → b ≠ "" → GetBaseDenom st d = .ok b) := by
  unfold GetBaseDenom
  cases hb : st.baseDenom d with
  | none => simp
  | some b =>
      by_cases hbe : b = ""
      · subst hbe
        simp
      · simp [hbe]

/-- C8 witness: in `reg13` the entry for `abc` is `bcd`, and `GetBaseDenom`
returns it. -/
theorem GetBaseDenom_spec_witness : GetBaseDenom reg13 "abc" = .ok "bcd" :=
  (GetBaseDenom_spec reg13 "abc").2 "bcd" (by decide) (by decide)

/-- C8 counterexample: after registering `abc` with the empty string as base,
the base-link entry for `abc` exists, yet `GetBaseDenom` fails with
`NotRegistered`. -/
theorem GetBaseDenom_spec_counterexample :
    (regEmptyBase.baseDenom "abc").isSome = true ∧
    GetBaseDenom regEmptyBase "abc" = .error .notRegistered := by
  decide

/-- Anatomy of a successful registration: the name was grammar-valid and
fresh, and the new state is the old one with the four map writes applied
(the write for `bDenom` taking precedence). -/
theorem RegisterDenom_ok (st : Registry) (denom bD : String) (unit bU : ℚ)
    (st' : Registry)
    (h : RegisterDenom st denom unit bD bU = .ok st') :
    ValidateDenom denom = true ∧ st.denomUnits denom = none ∧
    st' = ⟨fun d =>
        if d = bD then some bU
        else if d = denom then some unit
        else st.denomUnits d,
      fun d =>
        if d = bD then some bD
        else if d = denom then some bD
        else st.baseDenom d⟩ := by
  unfold RegisterDenom at h
  by_cases hv : ValidateDenom denom = false
  · rw [if_pos hv] at h
    cases h
  · rw [if_neg hv] at h
    cases hval : st.denomUnits denom with
    | some v =>
        rw [hval] at h
        simp at h
    | none =>
        rw [hval] at h
        simp only [Option.isSome_none, Bool.false_eq_true, if_false] at h
        exact ⟨eq_true_of_ne_false hv, rfl, (Except.ok.inj h).symm⟩

/-- One `RegisterDenom` call (successful or failing) preserves both
base-link invariants. -/
theorem applyReg_preserves (st : Registry) (rc : RegCall)
    (h1 : BaseLinkInv st) (h2 : BaseHasUnit st) :
    BaseLinkInv (applyReg st rc) ∧ BaseHasUnit (applyReg st rc) := by
  have key : ∀ st',
      RegisterDenom st rc.denom rc.unit rc.bDenom rc.bUnit = .ok st' →
      BaseLinkInv st' ∧ BaseHasUnit st' := by
    intro st' hr
    obtain ⟨hv, hnone, hst⟩ :=
      RegisterDenom_ok st rc.denom rc.bDenom rc.unit rc.bUnit st' hr
    subst hst
    constructor
    · intro d b hdb
      dsimp only at hdb ⊢
      split at hdb
      case isTrue h =>
        obtain rfl := Option.some.inj hdb
        simp
      case isFalse h =>
        split at hdb
        case isTrue h' =>
          obtain rfl := Option.some.inj hdb
          simp
        case isFalse h' =>
          have hbu : (st.denomUnits b).isSome = true := h2 d b hdb
          have hbne : b ≠ rc.denom := by
            intro hbd
            rw [hbd, hnone] at hbu
            simp at hbu
          by_cases hbb : b = rc.bDenom
          · rw [if_pos hbb, hbb]
          · rw [if_neg hbb, if_neg hbne]
            exact h1 d b hdb
    · intro d b hdb
      dsimp only at hdb ⊢
      split at hdb
      case isTrue h =>
        obtain rfl := Option.some.inj hdb
        simp
      case isFalse h =>
        split at hdb
        case isTrue h' =>
          obtain rfl := Option.some.inj hdb
          simp
        case isFalse h' =>
          have hbu : (st.denomUnits b).isSome = true := h2 d b hdb
          have hbne : b ≠ rc.denom := by
            intro hbd
            rw [hbd, hnone] at hbu
            simp at hbu
          by_cases hbb : b = rc.bDenom
          · rw [if_pos hbb]
            simp
          · rw [if_neg hbb, if_neg hbne]
            exact hbu
  unfold applyReg
  cases hr : RegisterDenom st rc.denom rc.unit rc.bDenom rc.bUnit with
  | error e => exact ⟨h1, h2⟩
  | ok st' => exact key st' hr

/-- Both base-link invariants hold along any fold of `applyReg`. -/
theorem foldl_applyReg_inv (cs : List RegCall) (st : Registry)
    (h1 : BaseLinkInv st) (h2 : BaseHasUnit st) :
    BaseLinkInv (cs.foldl applyReg st) ∧ BaseHasUnit (cs.foldl applyReg st) := by
  induction cs generalizing st with
  | nil => exact ⟨h1, h2⟩
  | cons c t ih =>
      simp only [List.foldl_cons]
      have h := applyReg_preserves st c h1 h2
      exact ih _ h.1 h.2

/-- C9: starting from the empty registry, after every finite sequence of
`RegisterDenom` calls (successful or failing), the base-link map is
idempotent: whenever `d` has a base-link entry `b`, the entry of `b` exists
and is `b` itself. -/
theorem baseLink_idempotent (cs : List RegCall) (d b : String)
    (h : (execRegs cs).baseDenom d = some b) :
    (execRegs cs).baseDenom b = some b := by
  have hinv := foldl_applyReg_inv cs emptyRegistry
    (by
      intro x y hxy
      simp [emptyRegistry] at hxy)
    (by
      intro x y hxy
      simp [emptyRegistry] at hxy)
  exact hinv.1 d b h

/-- C9 witness: in the atom/uatom registry, `atom` links to `uatom` and the
theorem yields the self-link of `uatom`. -/
theorem baseLink_idempotent_witness :
    (execRegs [⟨"atom", 1, "uatom", mkRat 1 1000000⟩]).baseDenom "uatom" =
      some "uatom" :=
  baseLink_idempotent [⟨"atom", 1, "uatom", mkRat 1 1000000⟩] "atom" "uatom"
    (by decide)

/-- C7: whenever the multi-coin parse succeeds, `ParseCoinsNormalized`
normalizes the parsed coins elementwise in input order (duplicates kept as
separate entries); in particular `"1atom,2uatom"` against the atom/uatom
registry yields exactly the two coins `1000000uatom` and `2uatom`, in input
order. -/
theorem ParseCoinsNormalized_order (st : Registry) (s : String)
    (ds : List DecCoin) (h : ParseDecCoins s = .ok ds) :
    ParseCoinsNormalized st s =
      .ok (ds.map fun dc => (TruncateDecimal (NormalizeDecCoin st dc)).1) ∧
    ParseCoinsNormalized regAtom "1atom,2uatom" =
      .ok [⟨"uatom", 1000000⟩, ⟨"uatom", 2⟩] := by
  constructor
  · unfold ParseCoinsNormalized
    rw [h]
    rfl
  · decide

/-- C7 witness: parsing `"5abc"` over the empty registry returns the single
normalized coin in place. -/
theorem ParseCoinsNormalized_order_witness :
    ParseCoinsNormalized emptyRegistry "5abc" =
      .ok ([(⟨"abc", 5⟩ : DecCoin)].map fun dc =>
        (TruncateDecimal (NormalizeDecCoin emptyRegistry dc)).1) ∧
    ParseCoinsNormalized regAtom "1atom,2uatom" =
      .ok [⟨"uatom", 1000000⟩, ⟨"uatom", 2⟩] :=
  ParseCoinsNormalized_order emptyRegistry "5abc" [⟨"abc", 5⟩] (by decide)

/-- C10: `RegisterDenom` validates only `denom`, never `baseDenom`: the
grammar-invalid base name `ab` is accepted, receives a multiplier and a self
base-link, and a later `GetBaseDenom` lookup observes that link. -/
theorem RegisterDenom_skips_base_validation :
    ValidateDenom "ab" = false ∧
    ValidateDenom "abc" = true ∧
    errOf (RegisterDenom emptyRegistry "abc" 1 "ab" (mkRat 1 2)) = none ∧
    regShortBase.denomUnits "ab" = some (mkRat 1 2) ∧
    regShortBase.baseDenom "ab" = some "ab" ∧
    GetBaseDenom regShortBase "ab" = .ok "ab" ∧
    GetBaseDenom regShortBase "abc" = .ok "ab" := by
  decide

end DenomSpec
